import Mathlib

/-!
# Verification of the brocli command-line engine

A shallow embedding of the brocli resolution-and-parsing engine
(`command-core.ts`): option/command declaration validation (`command`,
`validateOptions`), candidate scanning and command resolution
(`getCommand`, `getCommandInner`), the per-command option parser
(`parseArg`, `parseOptions`), the test entry point (`test`), and the
routing part of the execution pipeline (`rawCli`).

Modelling conventions:
* JavaScript strings are Lean `String`s; the string primitives the code
  uses (`split('=')`, `includes('=')`, `startsWith('-')`, `toLowerCase`)
  are re-implemented structurally over `String.data` so that every
  definition evaluates by kernel reduction.  `toLowerCase` is modelled on
  ASCII letters, the only letters the engine ever compares.
* JavaScript numbers are modelled as `Rat`; the external builtin
  `Number(string)` is modelled by `jsNumber` on plain decimal literals
  (sign, digits, optional fraction; `Number('') = 0`), which covers every
  numeric token the engine's validations distinguish.
* `undefined` is modelled by `Option`/`OutputType.undefined`.  A JavaScript
  object used as a string-keyed record is an association list in
  insertion order; assigning through an `undefined` key
  (`result[name!]` with `name` undefined) stores under the coerced key
  `"undefined"`, as JavaScript does.
* Thrown errors are `Except.error` of a structured `ParseErr`; the
  human-readable message rendering is presentation and is not modelled.
* Opaque user callables (handlers, transforms, hooks, event handlers) are
  outside the embedding: a command records only whether a handler is
  present, and the pipeline is modelled as a routing function returning
  which event/handler fires with which payload.
-/

namespace Brocli

/-! ## String primitives (JavaScript semantics, structural) -/

/-- ASCII lowercasing of one character (models `String.prototype.toLowerCase`
on the ASCII range, which is all the engine compares). -/
def lowerChar (c : Char) : Char :=
  if 65 ≤ c.toNat ∧ c.toNat ≤ 90 then Char.ofNat (c.toNat + 32) else c

/-- `s.toLowerCase()` on ASCII letters. -/
def strLower (s : String) : String :=
  ⟨s.data.map lowerChar⟩

/-- `s.startsWith('-')`. -/
def startsDash (s : String) : Bool :=
  match s.data with
  | '-' :: _ => true
  | _ => false

/-- `s.includes('=')`. -/
def strContainsEq (s : String) : Bool :=
  s.data.contains '='

/-- Helper for `splitEq`: split a character list at every `'='`. -/
def splitEqAux : List Char → List Char → List (List Char)
  | acc, [] => [acc.reverse]
  | acc, c :: rest =>
    if c = '=' then acc.reverse :: splitEqAux [] rest
    else splitEqAux (c :: acc) rest

/-- `s.split('=')` — always a non-empty list, like in JavaScript. -/
def splitEq (s : String) : List String :=
  (splitEqAux [] s.data).map fun l => ⟨l⟩

/-- `s.split('=')[0]` — the part of a token before the first `=`. -/
def splitEqHead (s : String) : String :=
  (splitEq s).headD ""

/-- `parts.join('=')`. -/
def joinEq : List String → String
  | [] => ""
  | [x] => x
  | x :: xs => x ++ "=" ++ joinEq xs

/-! ## The external `Number` builtin, on decimal literals -/

/-- Value of one decimal digit. -/
def digitVal (c : Char) : Option Nat :=
  if 48 ≤ c.toNat ∧ c.toNat ≤ 57 then some (c.toNat - 48) else none

/-- Parse a run of decimal digits; the empty run parses as `0`
(matching how `Number` treats a missing integer or fraction part next to
a decimal point). -/
def parseNatDigits (l : List Char) : Option Nat :=
  l.foldl
    (fun acc c =>
      match acc, digitVal c with
      | some n, some d => some (n * 10 + d)
      | _, _ => none)
    (some 0)

/-- Split a character list at the first `'.'`, if any. -/
def splitDot : List Char → List Char × Option (List Char)
  | [] => ([], none)
  | c :: rest =>
    if c = '.' then ([], some rest)
    else
      let (ip, fp) := splitDot rest
      (c :: ip, fp)

/-- Strip a leading sign. Returns (isNegative, rest). -/
def signSplit : List Char → Bool × List Char
  | '-' :: r => (true, r)
  | '+' :: r => (false, r)
  | r => (false, r)

/-- Models the JavaScript builtin `Number(s)` on plain decimal literals:
`none` is `NaN`.  `Number('') = 0`; a bare sign or dot is `NaN`. -/
def jsNumber (s : String) : Option Rat :=
  match s.data with
  | [] => some 0
  | l =>
    let (neg, l1) := signSplit l
    match splitDot l1 with
    | (ip, none) =>
      if ip.isEmpty then none
      else (parseNatDigits ip).map fun n => if neg then -(n : Rat) else (n : Rat)
    | (ip, some fp) =>
      if ip.isEmpty && fp.isEmpty then none
      else
        match parseNatDigits ip, parseNatDigits fp with
        | some n, some f =>
          let q : Rat := (n : Rat) + (f : Rat) / ((10 : Rat) ^ fp.length)
          some (if neg then -q else q)
        | _, _ => none

/-- Modelled from the spec: `util.isInt`, whose source file is not under
`src/` — "integer-only flag and non-integral value → InvalidInteger": a
number passes the integer-only check exactly when it is integral. -/
def ratIsInt (q : Rat) : Bool :=
  q.den == 1

/-! ## Data model -/

/-- `OutputType = string | number | boolean | undefined`. -/
inductive OutputType where
  | str (s : String)
  | num (q : Rat)
  | bool (b : Bool)
  | undefined
deriving DecidableEq

/-- Option kinds (`BuilderConfig.type`). -/
inductive OptType where
  | string
  | number
  | boolean
  | positional
deriving DecidableEq

/-- An option builder config as declared by the user (`BuilderConfig`):
`name` may still be `undefined` (filled from the declaration key). -/
structure RawOptCfg where
  name : Option String := none
  aliases : List String := []
  type : OptType := .string
  isRequired : Bool := false
  default : OutputType := .undefined
  enumVals : Option (List String) := none
  isInt : Bool := false
  minVal : Option Rat := none
  maxVal : Option Rat := none
deriving DecidableEq

/-- A processed option config (`ProcessedBuilderConfig` after
`validateOptions`): the name is set and, for non-positionals, prefixed. -/
structure OptCfg where
  name : String
  aliases : List String := []
  type : OptType := .string
  isRequired : Bool := false
  default : OutputType := .undefined
  enumVals : Option (List String) := none
  isInt : Bool := false
  minVal : Option Rat := none
  maxVal : Option Rat := none
deriving DecidableEq

/-- `CommandCandidate`: a token of the original stream eligible to be a
command-path segment, tagged with its original index.  Indices are `Nat`;
the one place the code subtracts (`originalIndex - 1`) only ever runs on
indices the resolver has proved positive. -/
structure Candidate where
  data : String
  originalIndex : Nat
deriving DecidableEq

/-- A validated `Command` tree node.  `aliases = []` models an absent
alias list and `subcommands = []` an absent subcommand list (the
TypeScript types forbid empty arrays in those positions).  Opaque
callables are reduced to `hasHandler`; the parent back-reference is only
used to render error messages and is not modelled. -/
inductive Command : Type where
  | mk
    (name : String)
    (aliases : List String)
    (options : List (String × OptCfg))
    (hasHandler : Bool)
    (subcommands : List Command)

def Command.name : Command → String
  | .mk n _ _ _ _ => n

def Command.aliases : Command → List String
  | .mk _ a _ _ _ => a

def Command.options : Command → List (String × OptCfg)
  | .mk _ _ o _ _ => o

def Command.hasHandler : Command → Bool
  | .mk _ _ _ h _ => h

def Command.subcommands : Command → List Command
  | .mk _ _ _ _ s => s

/-- A user command declaration (`RawCommand`), before `command` validates
it.  `name = none` models an omitted name. -/
structure RawCommand where
  name : Option String := none
  aliases : List String := []
  options : Option (List (String × RawOptCfg)) := none
  hasHandler : Bool := false
  subcommands : List Command := []

/-- Structured forms of every error the engine throws.  Message
rendering (string formatting, dotted parent paths) is presentation and
is not modelled; each constructor carries the data the corresponding
message interpolates. -/
inductive ParseErr where
  | unknownCommand (caller : String)
  | unknownSubcommand (parentName caller : String)
  | missingRequired (commandName : String) (missingOpts : List (List String))
  | unrecognizedOptions (commandName : String) (args : List String)
  | invalidBooleanSyntax (matchedName : String)
  | invalidStringSyntax (matchedName : String)
  | enumViolation (matchedName : String) (data : Option String) (values : List String)
  | enumViolationPos (matchedName : String) (data : String) (values : List String)
  | invalidNumberSyntax (matchedName : String)
  | invalidNumberValue (matchedName : String) (data : Option String)
  | invalidInteger (matchedName : String) (data : Option String)
  | belowMin (matchedName : String) (data : Option String)
  | aboveMax (matchedName : String) (data : Option String)
  | optNameContainsEq (name : String)
  | reservedOptName (name matched : String)
  | optNameInUse (name : String)
  | optAliasInUse (name : String)
  | duplicateOptAlias (name : String)
  | subcommandsAndPositionals (name : Option String)
  | commandWithoutName
  | commandNameStartsDash (name : String)
  | commandAliasStartsDash (aliasName : String)
  | reservedCommandName (name : String)
  | reservedBoolCommandName (name : String)
  | duplicateCommandAlias (name : Option String)
deriving DecidableEq

/-! ## Option parsing (`parseArg`, `parseOptions`) -/

/-- The record `parseArg` returns; absent fields of the various literal
returns (`{}`, `{ isHelp: true }`, …) destructure to `undefined` at the
call site, modelled by the defaults here. -/
structure ParseArgRes where
  data : OutputType := .undefined
  skipNext : Bool := false
  name : Option String := none
  option : Option OptCfg := none
  isHelp : Bool := false
  isVersion : Bool := false
deriving DecidableEq

/-- The `options.find(...)` call inside `parseArg`: walk the
non-positional entries; the first entry whose name or alias equals
`namePart` is classified by kind, possibly throwing, producing the
matched key and config together with the `data` and `skipNext` values the
callback assigns (`skipNext` starts as `!hasEq` and is only ever lowered
to `false`).  A non-`string`, non-`boolean` kind takes the number path,
exactly as the source's `else` branch does. -/
def findOption (namePart : String) (dataPart : Option String) (hasEq : Bool)
    (nextArg : Option String) :
    List (String × OptCfg) → Except ParseErr (Option (String × OptCfg × OutputType × Bool))
  | [] => .ok none
  | (key, opt) :: rest =>
    if (opt.name :: opt.aliases).contains namePart then
      if opt.type == .boolean then
        if !hasEq && (nextArg.map startsDash).getD false then
          .ok (some (key, opt, .bool true, false))
        else
          let lcaseData := dataPart.map strLower
          if lcaseData == none || lcaseData == some "" || lcaseData == some "true"
              || lcaseData == some "1" then
            .ok (some (key, opt, .bool true, !hasEq))
          else if lcaseData == some "false" || lcaseData == some "0" then
            .ok (some (key, opt, .bool false, !hasEq))
          else if !hasEq then
            .ok (some (key, opt, .bool true, false))
          else
            .error (.invalidBooleanSyntax namePart)
      else if opt.type == .string then
        if !hasEq && nextArg == none then
          .error (.invalidStringSyntax namePart)
        else
          match opt.enumVals with
          | some vals =>
            if vals.any fun v => some v == dataPart then
              .ok (some (key, opt,
                (match dataPart with | some s => .str s | none => .undefined), !hasEq))
            else
              .error (.enumViolation namePart dataPart vals)
          | none =>
            .ok (some (key, opt,
              (match dataPart with | some s => .str s | none => .undefined), !hasEq))
      else
        if !hasEq && nextArg == none then
          .error (.invalidNumberSyntax namePart)
        else
          match (match dataPart with | some s => jsNumber s | none => none) with
          | none => .error (.invalidNumberValue namePart dataPart)
          | some numData =>
            if opt.isInt && !ratIsInt numData then
              .error (.invalidInteger namePart dataPart)
            else if (opt.minVal.map fun m => decide (numData < m)).getD false then
              .error (.belowMin namePart dataPart)
            else if (opt.maxVal.map fun m => decide (m < numData)).getD false then
              .error (.aboveMax namePart dataPart)
            else
              .ok (some (key, opt,
                (match dataPart with | some s => .str s | none => .undefined), !hasEq))
    else
      findOption namePart dataPart hasEq nextArg rest

/-- `parseArg(options, positionals, arg, nextArg)`.  The mutation of the
`positionals` queue (`positionals.shift()`) is returned as the second
component. -/
def parseArg (options positionals : List (String × OptCfg)) (arg : String)
    (nextArg : Option String) :
    Except ParseErr (ParseArgRes × List (String × OptCfg)) :=
  let hasEq := strContainsEq arg
  let namePart := splitEqHead arg
  let dataPart := if hasEq then some (joinEq (splitEq arg).tail) else nextArg
  if namePart == "--help" || namePart == "-h" then
    .ok ({ isHelp := true }, positionals)
  else if namePart == "--version" || namePart == "-v" then
    .ok ({ isVersion := true }, positionals)
  else if !startsDash arg then
    match positionals with
    | [] => .ok ({}, [])
    | (pk, pcfg) :: ps =>
      match pcfg.enumVals with
      | some vals =>
        if vals.any fun v => some v == dataPart then
          .ok ({ data := .str arg, skipNext := false, name := some pk,
                 option := some pcfg }, ps)
        else
          .error (.enumViolationPos pcfg.name arg vals)
      | none =>
        .ok ({ data := .str arg, skipNext := false, name := some pk,
               option := some pcfg }, ps)
  else
    match findOption namePart dataPart hasEq nextArg options with
    | .error e => .error e
    | .ok none =>
      .ok ({ data := .undefined, skipNext := !hasEq, name := none, option := none },
        positionals)
    | .ok (some (key, cfg, data, skip)) =>
      .ok ({ data := data, skipNext := skip, name := some key, option := some cfg },
        positionals)

/-- The JavaScript key coercion in `result[name!] = data`: an undefined
key stores under the string `"undefined"`. -/
def jsKey (n : Option String) : String :=
  n.getD "undefined"

/-- Assignment to a string-keyed JavaScript object: update in place if
the key exists, else append. -/
def setKey (m : List (String × OutputType)) (k : String) (v : OutputType) :
    List (String × OutputType) :=
  if m.any fun p => p.1 == k then
    m.map fun p => if p.1 == k then (k, v) else p
  else
    m ++ [(k, v)]

/-- `result[k]`, with absent keys reading as `undefined`. -/
def lookupOr (m : List (String × OutputType)) (k : String) : OutputType :=
  match m.find? fun p => p.1 == k with
  | some p => p.2
  | none => .undefined

/-- Outcome of the token scan loop of `parseOptions`. -/
inductive LoopRes where
  | helpRes
  | versionRes
  | done (result : List (String × OutputType)) (unrec : List String)
deriving DecidableEq

/-- The token scan loop of `parseOptions` (`for (let i = 0; ...)`): each
step reads `arg` and the lookahead, calls `parseArg`, records
unrecognized tokens (`if (!option) unrecognizedArgsArr.push(...)`),
consumes the lookahead when `skipNext`, writes `result[name!] = data`,
and returns the `help`/`version` sentinel immediately. -/
def parseLoop (nonPos : List (String × OptCfg)) :
    List (String × OptCfg) → List String → List (String × OutputType) →
    List String → Except ParseErr LoopRes
  | _, [], result, unrec => .ok (.done result unrec)
  | pos, arg :: rest, result, unrec =>
    match parseArg nonPos pos arg rest.head? with
    | .error e => .error e
    | .ok (r, pos') =>
      let unrec' := if r.option.isSome then unrec else unrec ++ [splitEqHead arg]
      let result' := setKey result (jsKey r.name) r.data
      if r.isHelp then .ok .helpRes
      else if r.isVersion then .ok .versionRes
      else
        if r.skipNext then
          match rest with
          | [] => .ok (.done result' unrec')
          | _ :: rest2 => parseLoop nonPos pos' rest2 result' unrec'
        else
          parseLoop nonPos pos' rest result' unrec'

/-- The defaulting pass after the scan: for each declared spec in
declaration order, substitute the default through `??`, write the key
back (always when `omitUndef` is false, only for defined values when true),
and collect `[name, ...aliases]` of every required spec still undefined. -/
def applyDefaults :
    List (String × OptCfg) → Bool → List (String × OutputType) →
    List (List String) → List (String × OutputType) × List (List String)
  | [], _, result, missing => (result, missing)
  | (key, opt) :: rest, omitUndef, result, missing =>
    let cur := lookupOr result key
    let data := if cur == .undefined then opt.default else cur
    let result' :=
      if !omitUndef then setKey result key data
      else if data == .undefined then result else setKey result key data
    let missing' :=
      if opt.isRequired && (lookupOr result' key == .undefined) then
        missing ++ [opt.name :: opt.aliases]
      else missing
    applyDefaults rest omitUndef result' missing'

/-- Result of `parseOptions`: an option mapping (`none` when the final
record has no keys), or the deferred help/version sentinel. -/
inductive ParseOut where
  | help
  | version
  | map (m : Option (List (String × OutputType)))
deriving DecidableEq

/-- Declaration-order non-positional entries of a command. -/
def nonPositionalEntries (command : Command) : List (String × OptCfg) :=
  command.options.filter fun e => !(e.2.type == .positional)

/-- Declaration-order positional entries of a command. -/
def positionalEntries (command : Command) : List (String × OptCfg) :=
  command.options.filter fun e => e.2.type == .positional

/-- `parseOptions(command, args, omitKeysOfUndefinedOptions)`. -/
def parseOptions (command : Command) (args : List String) (omitUndef : Bool) :
    Except ParseErr ParseOut :=
  let optEntries := command.options
  match parseLoop (nonPositionalEntries command) (positionalEntries command)
      args [] [] with
  | .error e => .error e
  | .ok .helpRes => .ok .help
  | .ok .versionRes => .ok .version
  | .ok (.done result unrec) =>
    let p := applyDefaults optEntries omitUndef result []
    if !p.2.isEmpty then .error (.missingRequired command.name p.2)
    else if !unrec.isEmpty then .error (.unrecognizedOptions command.name unrec)
    else .ok (.map (if p.1.isEmpty then none else some p.1))

/-- The discriminated result of the `test` entry point. -/
inductive TestResult where
  | handler (options : Option (List (String × OutputType)))
  | helpRes
  | versionRes
  | errorRes (e : ParseErr)
deriving DecidableEq

/-- The `test` entry point, on an already-tokenized argument list (the
shell-style tokenizer is an external collaborator) and for a command
without a transform: run `parseOptions` only, catching errors as data. -/
def testRun (command : Command) (tokens : List String) : TestResult :=
  match parseOptions command tokens false with
  | .error e => .errorRes e
  | .ok .help => .helpRes
  | .ok .version => .versionRes
  | .ok (.map m) => .handler m

/-! ## Candidate scanning and command resolution -/

/-- `removeByIndex(arr, idx)` — a copy of `arr` with the element at
`idx` excluded. -/
def removeByIndex {α : Type} (l : List α) (i : Nat) : List α :=
  l.take i ++ l.drop (i + 1)

/-- The per-recursion-depth index shift of `getCommandInner`:
`{ data: c.data, originalIndex: c.originalIndex - 1 }`. -/
def shiftCand (c : Candidate) : Candidate :=
  ⟨c.data, c.originalIndex - 1⟩

/-- Is a token one of the four reserved help/version flags? -/
def isHelpVersionFlag (s : String) : Bool :=
  s == "--help" || s == "-h" || s == "--version" || s == "-v"

/-- Is a (lowercased) token a recognized boolean literal? -/
def isBoolLit (s : String) : Bool :=
  let l := strLower s
  l == "0" || l == "1" || l == "true" || l == "false"

/-- The candidate-collection loop of `getCommand`: walk the tokens from
absolute index `i`; help/version flags skip a following boolean literal;
other flags without `=` skip the following token; everything else is a
candidate carrying its original index. -/
def scanAux : List String → Nat → List Candidate
  | [], _ => []
  | arg :: rest, i =>
    if isHelpVersionFlag arg then
      match rest with
      | [] => []
      | nxt :: rest2 =>
        if isBoolLit nxt then scanAux rest2 (i + 2)
        else scanAux (nxt :: rest2) (i + 1)
    else if startsDash arg then
      if strContainsEq arg then scanAux rest (i + 1)
      else
        match rest with
        | [] => []
        | _ :: rest2 => scanAux rest2 (i + 2)
    else
      ⟨arg, i⟩ :: scanAux rest (i + 1)

/-- The candidates of a token stream. -/
def scanCandidates (args : List String) : List Candidate :=
  scanAux args 0

/-- `commands.find(c => [c.name, ...aliases].find(n => n === arg))`. -/
def findCommand (cmds : List Command) (arg : String) : Option Command :=
  cmds.find? fun c => (c.name :: c.aliases).contains arg

/-- `getCommandInner(commands, candidates, args)` with the non-empty
candidate queue split into head and tail (the code asserts non-emptiness
with `candidates.shift()!`).  `fuel` bounds the recursion depth; the
caller passes the tail length, which the depth never exceeds since each
level consumes one candidate, so the `fuel = 0` fallback is unreachable. -/
def getCommandInner :
    Nat → List Command → Candidate → List Candidate → List String →
    Except ParseErr (Option Command × List String)
  | fuel, cmds, cand, rest, args =>
    match findCommand cmds cand.data with
    | none => .ok (none, args)
    | some command =>
      let newArgs := removeByIndex args cand.originalIndex
      match rest with
      | [] => .ok (some command, newArgs)
      | r :: rs =>
        if command.subcommands.isEmpty then .ok (some command, newArgs)
        else
          match fuel with
          | 0 => .ok (none, newArgs)
          | fuel' + 1 =>
            match getCommandInner fuel' command.subcommands (shiftCand r)
                (rs.map shiftCand) newArgs with
            | .error e => .error e
            | .ok (none, _) => .error (.unknownSubcommand command.name r.data)
            | .ok res => .ok res

/-- Result of `getCommand`: no command (global scope), the literal
`'help'` pseudo-command, or a resolved command. -/
inductive ResolvedCommand where
  | noCmd
  | helpLit
  | cmd (c : Command)

/-- `getCommand(commands, args)`. -/
def getCommand (commands : List Command) (args : List String) :
    Except ParseErr (ResolvedCommand × List String) :=
  match scanCandidates args with
  | [] => .ok (.noCmd, args)
  | first :: rest =>
    if first.data == "help" then
      .ok (.helpLit, removeByIndex args first.originalIndex)
    else
      match getCommandInner rest.length commands first rest args with
      | .error e => .error e
      | .ok (none, _) => .error (.unknownCommand first.data)
      | .ok (some c, argsRes) => .ok (.cmd c, argsRes)

/-! ## Execution pipeline routing (`rawCli`) -/

/-- The raw-stream help short-circuit test of `rawCli`: the first
`--help`/`-h` occurrence fires unless immediately preceded by a
flag-prefixed token lacking `=`. -/
def helpShort (args : List String) : Bool :=
  match args.findIdx? fun a => a == "--help" || a == "-h" with
  | none => false
  | some i =>
    if i == 0 then true
    else
      match args[i - 1]? with
      | some p => !(startsDash p && !strContainsEq p)
      | none => true

/-- The raw-stream version short-circuit test of `rawCli`: the first
`--version`/`-v` occurrence fires unless immediately preceded by any
flag-prefixed token (no `=` refinement here, unlike `helpShort`). -/
def versionShort (args : List String) : Bool :=
  match args.findIdx? fun a => a == "--version" || a == "-v" with
  | none => false
  | some i =>
    if i == 0 then true
    else
      match args[i - 1]? with
      | some p => !startsDash p
      | none => true

/-- Which event/handler the pipeline routes to.  `ran c m` models
invoking `c`'s handler with option map `m` (hooks and transform are
opaque collaborators run around it). -/
inductive Route where
  | globalHelp
  | commandHelp (c : Command)
  | versionRoute
  | ran (c : Command) (options : Option (List (String × OutputType)))

/-- The `do ... while (helpCommand === 'help')` loop of `rawCli`'s
`'help'` branch.  Each `'help'` round removes a token, so the argument
length bounds the rounds and the `fuel = 0` fallback is unreachable. -/
def helpLoop (commands : List Command) :
    Nat → List String → Except ParseErr Route
  | 0, _ => .ok .globalHelp
  | fuel + 1, args =>
    match getCommand commands args with
    | .error e => .error e
    | .ok (.helpLit, newest) => helpLoop commands fuel newest
    | .ok (.cmd c, _) => .ok (.commandHelp c)
    | .ok (.noCmd, _) => .ok .globalHelp

/-- The routing part of `rawCli` on the argument vector after the
two-element `argSource.slice(2)`: empty args → global help; the raw help
then version short-circuits; then resolution, `'help'` pseudo-resolution,
option parsing with its sentinels, and handler dispatch.
`validateCommands`, which either throws before any routing or returns
the forest unchanged, is applied by the caller and not repeated here. -/
def rawCliRoute (commands : List Command) (args : List String)
    (omitUndef : Bool) : Except ParseErr Route :=
  if args.isEmpty then .ok .globalHelp
  else if helpShort args then
    match getCommand commands args with
    | .error e => .error e
    | .ok (.cmd c, _) => .ok (.commandHelp c)
    | .ok (_, _) => .ok .globalHelp
  else if versionShort args then .ok .versionRoute
  else
    match getCommand commands args with
    | .error e => .error e
    | .ok (.noCmd, _) => .ok .globalHelp
    | .ok (.helpLit, newArgs) => helpLoop commands (newArgs.length + 1) newArgs
    | .ok (.cmd command, newArgs) =>
      match parseOptions command newArgs omitUndef with
      | .error e => .error e
      | .ok .help => .ok (.commandHelp command)
      | .ok .version => .ok .versionRoute
      | .ok (.map m) =>
        if command.hasHandler then .ok (.ran command m)
        else .ok (.commandHelp command)

/-! ## Definition-time validation (`validateOptions`, `command`) -/

/-- `generatePrefix`: canonical flag form of a bare option name. -/
def generatePrefixedName (name : String) : String :=
  if startsDash name then name
  else if name.data.length > 1 then "--" ++ name
  else "-" ++ name

/-- First pass of `validateOptions` over one entry: default the name
from the key; positionals pass through unprefixed; otherwise reject `=`
in the name or an alias, then prefix name and aliases. -/
def processCfg (key : String) (cfg : RawOptCfg) : Except ParseErr OptCfg :=
  let name0 := cfg.name.getD key
  if cfg.type == .positional then
    .ok { name := name0, aliases := cfg.aliases, type := cfg.type,
          isRequired := cfg.isRequired, default := cfg.default,
          enumVals := cfg.enumVals, isInt := cfg.isInt,
          minVal := cfg.minVal, maxVal := cfg.maxVal }
  else if strContainsEq name0 then .error (.optNameContainsEq name0)
  else if cfg.aliases.any strContainsEq then .error (.optNameContainsEq name0)
  else
    .ok { name := generatePrefixedName name0,
          aliases := cfg.aliases.map generatePrefixedName, type := cfg.type,
          isRequired := cfg.isRequired, default := cfg.default,
          enumVals := cfg.enumVals, isInt := cfg.isInt,
          minVal := cfg.minVal, maxVal := cfg.maxVal }

/-- First pass of `validateOptions` over all entries, in order. -/
def validatePass1 : List (String × RawOptCfg) → Except ParseErr (List (String × OptCfg))
  | [] => .ok []
  | (k, c) :: rest =>
    match processCfg k c with
    | .error e => .error e
    | .ok c' =>
      match validatePass1 rest with
      | .error e => .error e
      | .ok r => .ok ((k, c') :: r)

/-- The four flag spellings no option may declare. -/
def reservedOptNames : List String :=
  ["--help", "-h", "--version", "-v"]

/-- Does a list of strings contain a duplicate? -/
def hasDup : List String → Bool
  | [] => false
  | x :: xs => xs.contains x || hasDup xs

/-- Second pass of `validateOptions`: positionals pass through; for the
rest reject reserved spellings, collision of name or alias with any
already-stored name group, and duplicates within the own name group. -/
def validatePass2 :
    List (String × OptCfg) → List (List String) →
    Except ParseErr (List (String × OptCfg))
  | [], _ => .ok []
  | (key, cfg) :: rest, stored =>
    if cfg.type == .positional then
      match validatePass2 rest stored with
      | .error e => .error e
      | .ok tail => .ok ((key, cfg) :: tail)
    else
      let allNames := cfg.name :: cfg.aliases
      match allNames.find? (fun n => reservedOptNames.contains n) with
      | some m => .error (.reservedOptName cfg.name m)
      | none =>
        if stored.any (fun st => st.contains cfg.name) then
          .error (.optNameInUse cfg.name)
        else if cfg.aliases.any (fun a => stored.any fun st => st.contains a) then
          .error (.optAliasInUse cfg.name)
        else if hasDup allNames then
          .error (.duplicateOptAlias cfg.name)
        else
          match validatePass2 rest (stored ++ [allNames]) with
          | .error e => .error e
          | .ok tail => .ok ((key, cfg) :: tail)

/-- `validateOptions(config)`. -/
def validateOptionsList (cfgEntries : List (String × RawOptCfg)) :
    Except ParseErr (List (String × OptCfg)) :=
  match validatePass1 cfgEntries with
  | .error e => .error e
  | .ok l => validatePass2 l []

/-- Is an all-names entry reserved for boolean values
(case-insensitively `0`, `1`, `true`, `false`)?  An absent name
(`undefined`) never matches, as `n?.toLowerCase()` is `undefined`. -/
def reservedBoolName (n : Option String) : Bool :=
  let lc := n.map strLower
  lc == some "0" || lc == some "1" || lc == some "true" || lc == some "false"

/-- The `allNames.forEach` of `command`: reject the exact name `help`,
a case-insensitive boolean literal, and any name already seen earlier in
the list (the `findIndex` duplicate-alias check). -/
def checkAllNames :
    List (Option String) → List (Option String) → Except ParseErr Unit
  | _, [] => .ok ()
  | seen, n :: rest =>
    if n == some "help" then .error (.reservedCommandName "help")
    else if reservedBoolName n then
      .error (.reservedBoolCommandName ((n.map strLower).getD ""))
    else if seen.contains n then .error (.duplicateCommandAlias n)
    else checkAllNames (seen ++ [n]) rest

/-- `command(rawCommand)`: definition-time validation and processing of
one command declaration.  The parent assignment over subcommands mutates
only back-references, which are not modelled. -/
def commandBuild (raw : RawCommand) : Except ParseErr Command :=
  let allNames : List (Option String) :=
    if raw.aliases.isEmpty then [raw.name]
    else raw.name :: raw.aliases.map some
  if !raw.subcommands.isEmpty
      && (match raw.options with
          | some opts => opts.any fun e => e.2.type == .positional
          | none => false) then
    .error (.subcommandsAndPositionals raw.name)
  else
    match (match raw.options with
           | some o => (validateOptionsList o).map some
           | none => .ok none) with
    | .error e => .error e
    | .ok processedOptions =>
      let name? := match raw.name with
        | some n => some n
        | none => raw.aliases.head?
      let aliases1 := match raw.name with
        | some _ => raw.aliases
        | none => raw.aliases.tail
      match name? with
      | none => .error .commandWithoutName
      | some name =>
        if name == "" then .error .commandWithoutName
        else if startsDash name then .error (.commandNameStartsDash name)
        else
          match aliases1.find? startsDash with
          | some a => .error (.commandAliasStartsDash a)
          | none =>
            match checkAllNames [] allNames with
            | .error e => .error e
            | .ok () =>
              .ok (Command.mk name aliases1 (processedOptions.getD [])
                raw.hasHandler raw.subcommands)

/-- A command name the (amended) definition-time validation rejects:
empty, flag-prefixed, exactly `help`, or case-insensitively a boolean
literal. -/
def badCmdName (n : String) : Prop :=
  n = "" ∨ startsDash n = true ∨ n = "help" ∨ reservedBoolName (some n) = true

/-- A command alias the (amended) definition-time validation rejects:
flag-prefixed, exactly `help`, or case-insensitively a boolean literal
(an empty alias is not rejected). -/
def badCmdAliasName (a : String) : Prop :=
  startsDash a = true ∨ a = "help" ∨ reservedBoolName (some a) = true

/-! ## The candidate-index invariant (claim C9) -/

/-- The invariant of the candidate queue at each depth of command
resolution: every candidate still indexes its own token, and the
original indices are strictly increasing along the queue. -/
def CandInv (args : List String) (cands : List Candidate) : Prop :=
  (∀ c ∈ cands, args[c.originalIndex]? = some c.data) ∧
    List.Pairwise (fun a b => a.originalIndex < b.originalIndex) cands

/-! ## Concrete fixtures used by the claims -/

/-- A command declaring no option specs. -/
def cmdNoOpts : Command :=
  .mk "noopts" [] [] true []

/-- A positional spec with the enum constraint `["a", "b"]`. -/
def posCfgEnum : OptCfg :=
  { name := "target", type := .positional, enumVals := some ["a", "b"] }

/-- A positional spec with no constraint. -/
def posCfgPlain : OptCfg :=
  { name := "second", type := .positional }

/-- A command with one enum-constrained positional spec. -/
def cmdPosOne : Command :=
  .mk "poscmd" [] [("target", posCfgEnum)] true []

/-- A command with the enum-constrained positional followed by a plain
one. -/
def cmdPosTwo : Command :=
  .mk "poscmd2" [] [("target", posCfgEnum), ("second", posCfgPlain)] true []

/-- A number spec exercising every numeric validation: integer-only,
minimum 1, maximum 10. -/
def numCfg : OptCfg :=
  { name := "--count", type := .number, isInt := true,
    minVal := some 1, maxVal := some 10 }

/-- A command with the number spec `count`. -/
def cmdNum : Command :=
  .mk "numcmd" [] [("count", numCfg)] true []

/-- A required string spec with an alias. -/
def reqCfg : OptCfg :=
  { name := "--flag", aliases := ["-f"], type := .string, isRequired := true }

/-- A command with the required spec `flag`. -/
def cmdReq : Command :=
  .mk "reqcmd" [] [("flag", reqCfg)] true []

/-- The `push` command of the spec's help-short-circuit example. -/
def pushCmd : Command :=
  .mk "push" [] [] true []

/-- The `migrate` subcommand of the spec's resolution example. -/
def migrateCmd : Command :=
  .mk "migrate" [] [] true []

/-- The `db` command of the spec's resolution example. -/
def dbCmd : Command :=
  .mk "db" [] [] false [migrateCmd]

/-! ## Helper lemmas -/

theorem removeByIndex_sublist {α : Type} :
    ∀ (l : List α) (i : Nat), List.Sublist (removeByIndex l i) l := by
  intro l
  induction l with
  | nil => intro i; simp [removeByIndex]
  | cons a t ih =>
    intro i
    cases i with
    | zero =>
      simp only [removeByIndex, List.take_zero, List.drop_succ_cons,
        List.drop_zero, List.nil_append]
      exact List.sublist_cons_self a t
    | succ n =>
      simp only [removeByIndex, List.take_succ_cons, List.drop_succ_cons,
        List.cons_append]
      exact List.Sublist.cons₂ a (ih n)

theorem getElem?_removeByIndex {α : Type} :
    ∀ (l : List α) (i j : Nat), i < j →
      (removeByIndex l i)[j - 1]? = l[j]? := by
  intro l
  induction l with
  | nil => intro i j _; simp [removeByIndex]
  | cons a t ih =>
    intro i j hij
    cases i with
    | zero =>
      obtain ⟨k, rfl⟩ : ∃ k, j = k + 1 := ⟨j - 1, by omega⟩
      simp only [removeByIndex, List.take_zero, List.drop_succ_cons,
        List.drop_zero, List.nil_append, Nat.add_sub_cancel,
        List.getElem?_cons_succ]
    | succ n =>
      obtain ⟨k, rfl⟩ : ∃ k, j = k + 1 := ⟨j - 1, by omega⟩
      have hk : n < k := by omega
      obtain ⟨m, rfl⟩ : ∃ m, k = m + 1 := ⟨k - 1, by omega⟩
      simp only [removeByIndex, List.take_succ_cons, List.drop_succ_cons,
        List.cons_append, Nat.add_sub_cancel, List.getElem?_cons_succ]
      have := ih n (m + 1) (by omega)
      simpa [removeByIndex] using this

theorem drop_cons_head {α : Type} (args : List α) (i : Nat) (a : α)
    (t : List α) (h : args.drop i = a :: t) : args[i]? = some a := by
  have hh : (args.drop i).head? = args[i]? := List.head?_drop args i
  rw [h] at hh
  exact hh.symm

theorem drop_cons_tail {α : Type} (args : List α) (i : Nat) (a : α)
    (t : List α) (h : args.drop i = a :: t) : args.drop (i + 1) = t := by
  have hh : (args.drop i).tail = args.drop (i + 1) := List.tail_drop args i
  rw [h] at hh
  exact hh.symm

theorem findOption_not_mem :
    ∀ (entries : List (String × OptCfg)) (namePart : String)
      (dataPart : Option String) (hasEq : Bool) (nextArg : Option String),
      (∀ e ∈ entries, ((e.2.name :: e.2.aliases).contains namePart) = false) →
      findOption namePart dataPart hasEq nextArg entries = .ok none := by
  intro entries namePart dataPart hasEq nextArg h
  induction entries with
  | nil => rfl
  | cons e rest ih =>
    obtain ⟨key, opt⟩ := e
    have h0 := h (key, opt) (List.mem_cons_self _ _)
    simp only [findOption, h0, Bool.false_eq_true, if_false]
    exact ih fun e he => h e (List.mem_cons_of_mem _ he)

theorem scanAux_invariant :
    ∀ (n : Nat) (rem : List String) (i : Nat) (args : List String),
      rem.length ≤ n → args.drop i = rem →
      ∀ c ∈ scanAux rem i,
        args[c.originalIndex]? = some c.data ∧ i ≤ c.originalIndex := by
  intro n
  induction n with
  | zero =>
    intro rem i args hlen _ c hc
    have hnil : rem = [] := List.length_eq_zero.mp (Nat.le_zero.mp hlen)
    subst hnil
    simp [scanAux] at hc
  | succ n ih =>
    intro rem i args hlen hdrop c hc
    cases rem with
    | nil => simp [scanAux] at hc
    | cons arg rest =>
      have hlen' : rest.length ≤ n := by
        simp only [List.length_cons] at hlen; omega
      have hhead : args[i]? = some arg := drop_cons_head args i arg rest hdrop
      have htail : args.drop (i + 1) = rest := drop_cons_tail args i arg rest hdrop
      unfold scanAux at hc
      by_cases h1 : isHelpVersionFlag arg = true
      · rw [if_pos h1] at hc
        cases rest with
        | nil => dsimp only at hc; simp at hc
        | cons nxt rest2 =>
          dsimp only at hc
          have hlen2 : rest2.length ≤ n := by
            simp only [List.length_cons] at hlen'; omega
          have htail2 : args.drop (i + 2) = rest2 :=
            drop_cons_tail args (i + 1) nxt rest2 htail
          by_cases h2 : isBoolLit nxt = true
          · rw [if_pos h2] at hc
            have h3 := ih rest2 (i + 2) args hlen2 htail2 c hc
            exact ⟨h3.1, by omega⟩
          · rw [if_neg h2] at hc
            have h3 := ih (nxt :: rest2) (i + 1) args hlen' htail c hc
            exact ⟨h3.1, by omega⟩
      · rw [if_neg h1] at hc
        by_cases h3 : startsDash arg = true
        · rw [if_pos h3] at hc
          by_cases h4 : strContainsEq arg = true
          · rw [if_pos h4] at hc
            have h5 := ih rest (i + 1) args hlen' htail c hc
            exact ⟨h5.1, by omega⟩
          · rw [if_neg h4] at hc
            cases rest with
            | nil => dsimp only at hc; simp at hc
            | cons nxt rest2 =>
              dsimp only at hc
              have hlen2 : rest2.length ≤ n := by
                simp only [List.length_cons] at hlen'; omega
              have htail2 : args.drop (i + 2) = rest2 :=
                drop_cons_tail args (i + 1) nxt rest2 htail
              have h5 := ih rest2 (i + 2) args hlen2 htail2 c hc
              exact ⟨h5.1, by omega⟩
        · rw [if_neg h3] at hc
          rcases List.mem_cons.mp hc with rfl | hc'
          · exact ⟨hhead, le_refl i⟩
          · have h5 := ih rest (i + 1) args hlen' htail c hc'
            exact ⟨h5.1, by omega⟩

theorem scanAux_lowerBound (rem : List String) (i : Nat) (c : Candidate)
    (hc : c ∈ scanAux rem i) : i ≤ c.originalIndex := by
  have hdrop : (List.replicate i "" ++ rem).drop i = rem := by
    have h := List.drop_left (List.replicate i "") rem
    rw [List.length_replicate] at h
    exact h
  exact (scanAux_invariant rem.length rem i (List.replicate i "" ++ rem)
    le_rfl hdrop c hc).2

theorem scanAux_pairwise :
    ∀ (n : Nat) (rem : List String), rem.length ≤ n → ∀ i,
      List.Pairwise (fun a b => a.originalIndex < b.originalIndex)
        (scanAux rem i) := by
  intro n
  induction n with
  | zero =>
    intro rem hlen i
    have hnil : rem = [] := List.length_eq_zero.mp (Nat.le_zero.mp hlen)
    subst hnil
    simp [scanAux]
  | succ n ih =>
    intro rem hlen i
    cases rem with
    | nil => simp [scanAux]
    | cons arg rest =>
      have hlen' : rest.length ≤ n := by
        simp only [List.length_cons] at hlen; omega
      unfold scanAux
      by_cases h1 : isHelpVersionFlag arg = true
      · rw [if_pos h1]
        cases rest with
        | nil => dsimp only; simp
        | cons nxt rest2 =>
          dsimp only
          have hlen2 : rest2.length ≤ n := by
            simp only [List.length_cons] at hlen'; omega
          by_cases h2 : isBoolLit nxt = true
          · rw [if_pos h2]; exact ih rest2 hlen2 (i + 2)
          · rw [if_neg h2]; exact ih (nxt :: rest2) hlen' (i + 1)
      · rw [if_neg h1]
        by_cases h3 : startsDash arg = true
        · rw [if_pos h3]
          by_cases h4 : strContainsEq arg = true
          · rw [if_pos h4]; exact ih rest hlen' (i + 1)
          · rw [if_neg h4]
            cases rest with
            | nil => dsimp only; simp
            | cons nxt rest2 =>
              dsimp only
              have hlen2 : rest2.length ≤ n := by
                simp only [List.length_cons] at hlen'; omega
              exact ih rest2 hlen2 (i + 2)
        · rw [if_neg h3]
          refine List.Pairwise.cons ?_ (ih rest hlen' (i + 1))
          intro b hb
          have hlb := scanAux_lowerBound rest (i + 1) b hb
          show i < b.originalIndex
          omega

theorem getCommandInner_sublist :
    ∀ (fuel : Nat) (cmds : List Command) (cand : Candidate)
      (rest : List Candidate) (args : List String)
      (res : Option Command × List String),
      getCommandInner fuel cmds cand rest args = .ok res →
      List.Sublist res.2 args := by
  intro fuel
  induction fuel with
  | zero =>
    intro cmds cand rest args res h
    unfold getCommandInner at h
    dsimp only at h
    split at h
    · obtain rfl : (none, args) = res := by simpa using h
      exact List.Sublist.refl args
    · split at h
      · obtain rfl : _ = res := by simpa using h
        exact removeByIndex_sublist args cand.originalIndex
      · split at h
        · obtain rfl : _ = res := by simpa using h
          exact removeByIndex_sublist args cand.originalIndex
        · obtain rfl : _ = res := by simpa using h
          exact removeByIndex_sublist args cand.originalIndex
  | succ n ih =>
    intro cmds cand rest args res h
    unfold getCommandInner at h
    dsimp only at h
    split at h
    · obtain rfl : (none, args) = res := by simpa using h
      exact List.Sublist.refl args
    · split at h
      · obtain rfl : _ = res := by simpa using h
        exact removeByIndex_sublist args cand.originalIndex
      · split at h
        · obtain rfl : _ = res := by simpa using h
          exact removeByIndex_sublist args cand.originalIndex
        · split at h
          · exact absurd h (by simp)
          · exact absurd h (by simp)
          · next c argsRes hrec =>
            obtain rfl : _ = res := by simpa using h
            exact List.Sublist.trans (ih _ _ _ _ _ hrec)
              (removeByIndex_sublist args cand.originalIndex)

theorem getCommand_sublist (cmds : List Command) (args : List String)
    (res : ResolvedCommand × List String) (h : getCommand cmds args = .ok res) :
    List.Sublist res.2 args := by
  unfold getCommand at h
  split at h
  · obtain rfl : _ = res := by simpa using h
    exact List.Sublist.refl args
  · next first rest heq =>
    split at h
    · obtain rfl : _ = res := by simpa using h
      exact removeByIndex_sublist args first.originalIndex
    · split at h
      · exact absurd h (by simp)
      · exact absurd h (by simp)
      · next c argsRes hg =>
        obtain rfl : _ = res := by simpa using h
        exact getCommandInner_sublist _ _ _ _ _ _ hg

theorem lookupOr_undefined (m : List (String × OutputType)) (k : String)
    (h : ∀ kv ∈ m, kv.2 = .undefined) : lookupOr m k = .undefined := by
  unfold lookupOr
  cases hf : m.find? fun p => p.1 == k with
  | none => rfl
  | some p => exact h p (List.mem_of_find?_eq_some hf)

theorem setKey_undefined_values (m : List (String × OutputType)) (k : String)
    (h : ∀ kv ∈ m, kv.2 = .undefined) :
    ∀ kv ∈ setKey m k .undefined, kv.2 = .undefined := by
  intro kv hkv
  unfold setKey at hkv
  by_cases hany : (m.any fun p => p.1 == k) = true
  · rw [if_pos hany] at hkv
    obtain ⟨p, hp, hpe⟩ := List.mem_map.mp hkv
    by_cases hpk : (p.1 == k) = true
    · rw [if_pos hpk] at hpe; rw [← hpe]
    · rw [if_neg hpk] at hpe; rw [← hpe]; exact h p hp
  · rw [if_neg hany] at hkv
    rcases List.mem_append.mp hkv with hm | hs
    · exact h kv hm
    · rcases List.mem_singleton.mp hs with rfl; rfl

theorem applyDefaults_all_missing :
    ∀ (entries : List (String × OptCfg)) (result : List (String × OutputType))
      (missing : List (List String)),
      (∀ kv ∈ result, kv.2 = .undefined) →
      (entries.all fun e => e.2.isRequired && (e.2.default == .undefined)) = true →
      (applyDefaults entries false result missing).2
        = missing ++ entries.map fun e => e.2.name :: e.2.aliases := by
  intro entries
  induction entries with
  | nil => intro result missing _ _; simp [applyDefaults]
  | cons e rest ih =>
    intro result missing hres hall
    obtain ⟨key, opt⟩ := e
    simp only [List.all_cons, Bool.and_eq_true] at hall
    obtain ⟨⟨hreq, hdef⟩, hall'⟩ := hall
    have hdef' : opt.default = .undefined := by
      simpa using hdef
    unfold applyDefaults
    have hcur : lookupOr result key = .undefined := lookupOr_undefined result key hres
    have hdata :
        (if (lookupOr result key == OutputType.undefined) = true then opt.default
          else lookupOr result key) = OutputType.undefined := by
      rw [hcur, hdef']; simp
    dsimp only
    rw [hcur, hdef']
    simp only [Bool.not_false, beq_self_eq_true, if_pos, if_true, ite_true]
    have hres' : ∀ kv ∈ setKey result key OutputType.undefined, kv.2 = .undefined :=
      setKey_undefined_values result key hres
    have hlook' : lookupOr (setKey result key OutputType.undefined) key = .undefined :=
      lookupOr_undefined _ key hres'
    rw [hreq, hlook']
    simp only [beq_self_eq_true, Bool.and_true, if_pos, if_true, ite_true]
    rw [ih _ _ hres' hall']
    simp [List.append_assoc]

theorem applyDefaults_missing_sublist :
    ∀ (entries : List (String × OptCfg)) (o : Bool)
      (result : List (String × OutputType)) (missing : List (List String)),
      List.Sublist ((applyDefaults entries o result missing).2)
        (missing ++ entries.map fun e => e.2.name :: e.2.aliases) := by
  intro entries
  induction entries with
  | nil => intro o result missing; simp [applyDefaults]
  | cons e rest ih =>
    intro o result missing
    obtain ⟨key, opt⟩ := e
    unfold applyDefaults
    dsimp only
    set result' :=
      if (!o) = true then
        setKey result key
          (if (lookupOr result key == OutputType.undefined) = true then opt.default
            else lookupOr result key)
      else
        if ((if (lookupOr result key == OutputType.undefined) = true then opt.default
              else lookupOr result key) == OutputType.undefined) = true then result
        else
          setKey result key
            (if (lookupOr result key == OutputType.undefined) = true then opt.default
              else lookupOr result key) with hres'
    by_cases hmiss :
        (opt.isRequired && (lookupOr result' key == OutputType.undefined)) = true
    · rw [if_pos hmiss]
      have h1 := ih o result' (missing ++ [opt.name :: opt.aliases])
      have heq : (missing ++ [opt.name :: opt.aliases])
            ++ rest.map (fun e => e.2.name :: e.2.aliases)
          = missing ++ (opt.name :: opt.aliases)
            :: rest.map (fun e => e.2.name :: e.2.aliases) := by
        simp
      simp only [List.map_cons]
      rw [← heq]
      exact h1
    · rw [if_neg hmiss]
      have h1 := ih o result' missing
      refine List.Sublist.trans h1 ?_
      refine List.Sublist.append_left ?_ missing
      simp only [List.map_cons]
      exact List.sublist_cons_self _ _

theorem checkAllNames_err :
    ∀ (l : List (Option String)) (seen : List (Option String)),
      (∃ n ∈ l, n = some "help" ∨ reservedBoolName n = true) →
      ∃ e, checkAllNames seen l = .error e := by
  intro l
  induction l with
  | nil => intro seen h; obtain ⟨n, hn, _⟩ := h; exact absurd hn (by simp)
  | cons x xs ih =>
    intro seen h
    unfold checkAllNames
    by_cases h1 : (x == some "help") = true
    · rw [if_pos h1]; exact ⟨_, rfl⟩
    · rw [if_neg h1]
      by_cases h2 : reservedBoolName x = true
      · rw [if_pos h2]; exact ⟨_, rfl⟩
      · rw [if_neg h2]
        by_cases h3 : (seen.contains x) = true
        · rw [if_pos h3]; exact ⟨_, rfl⟩
        · rw [if_neg h3]
          obtain ⟨n, hn, hbad⟩ := h
          rcases List.mem_cons.mp hn with rfl | hn'
          · rcases hbad with rfl | hbool
            · exact absurd (by simp) h1
            · exact absurd hbool h2
          · exact ih (seen ++ [x]) ⟨n, hn', hbad⟩

/-! ## Claim theorems -/

/-- C1 (counterexample): parsing `["--nope", "--also-nope=1"]` against a
command with no matching specs raises an aggregate error naming only
`--nope` — not both flags as the claim states: the `=`-free unmatched
flag `--nope` consumes `--also-nope=1` as its presumed value. -/
theorem C1_counterexample :
    parseOptions cmdNoOpts ["--nope", "--also-nope=1"] false
      = .error (.unrecognizedOptions "noopts" ["--nope"]) ∧
    (["--nope"] : List String) ≠ ["--nope", "--also-nope"] :=
  ⟨rfl, by decide⟩

/-- C1 (amended): for a flag-prefixed token matching no declared option
spec (and not spelling a reserved help/version flag), `parseArg` leaves
the positional queue untouched, reports no match, and sets `skipNext`
exactly when the token lacks `=` — so the following token IS consumed for
an `=`-free unrecognized flag.  `parseOptions` records the part of each
such token before the first `=`: `["--nope", "--also-nope=1"]` yields an
aggregate error naming only `--nope`, while `["--nope=1", "--also-nope=2"]`
(both tokens carrying `=`) names both. -/
theorem C1_unrecognized_flag :
    (∀ (opts pos : List (String × OptCfg)) (arg : String)
      (next : Option String),
      startsDash arg = true →
      splitEqHead arg ∉ reservedOptNames →
      (∀ e ∈ opts, ((e.2.name :: e.2.aliases).contains (splitEqHead arg)) = false) →
      parseArg opts pos arg next
        = .ok ({ data := .undefined, skipNext := !strContainsEq arg,
                 name := none, option := none }, pos)) ∧
    parseOptions cmdNoOpts ["--nope", "--also-nope=1"] false
      = .error (.unrecognizedOptions "noopts" ["--nope"]) ∧
    parseOptions cmdNoOpts ["--nope=1", "--also-nope=2"] false
      = .error (.unrecognizedOptions "noopts" ["--nope", "--also-nope"]) := by
  refine ⟨?_, rfl, rfl⟩
  intro opts pos arg next hdash hres hnomatch
  have hr : splitEqHead arg ≠ "--help" ∧ splitEqHead arg ≠ "-h" ∧
      splitEqHead arg ≠ "--version" ∧ splitEqHead arg ≠ "-v" := by
    simpa [reservedOptNames] using hres
  unfold parseArg
  dsimp only
  rw [if_neg (by simp [hr.1, hr.2.1])]
  rw [if_neg (by simp [hr.2.2.1, hr.2.2.2])]
  rw [if_neg (by simp [hdash])]
  rw [findOption_not_mem opts (splitEqHead arg) _ (strContainsEq arg) next hnomatch]

/-- C1 (witness for the amended theorem). -/
theorem C1_witness :
    startsDash "--nope" = true ∧
    parseArg [] [] "--nope" (some "--also-nope=1")
      = .ok ({ data := .undefined, skipNext := !strContainsEq "--nope",
               name := none, option := none }, []) :=
  ⟨rfl, C1_unrecognized_flag.1 [] [] "--nope" (some "--also-nope=1")
    rfl (by decide) (by simp)⟩

/-- C2 (counterexample): a token with no positional slot left is NOT
dropped silently: `["extra"]` against a command with no specs raises an
aggregate UnrecognizedOptions error, whereas the parse without that token
succeeds with no mapping — the outcomes differ. -/
theorem C2_counterexample :
    parseOptions cmdNoOpts ["extra"] false
      = .error (.unrecognizedOptions "noopts" ["extra"]) ∧
    parseOptions cmdNoOpts [] false = .ok (.map none) ∧
    (Except.error (ParseErr.unrecognizedOptions "noopts" ["extra"])
      ≠ (.ok (.map none) : Except ParseErr ParseOut)) :=
  ⟨rfl, rfl, by simp⟩

/-- C2 (amended): a non-flag token arriving when the positional queue is
empty raises no error in `parseArg` and binds no spec (the empty result
record), but `parseOptions` records it in the unrecognized set, so the
parse ends in an aggregate UnrecognizedOptions error naming it (unless a
MissingRequired error takes priority). -/
theorem C2_positional_overflow :
    (∀ (opts : List (String × OptCfg)) (arg : String) (next : Option String),
      startsDash arg = false →
      startsDash (splitEqHead arg) = false →
      parseArg opts [] arg next = .ok ({}, [])) ∧
    parseOptions cmdNoOpts ["extra"] false
      = .error (.unrecognizedOptions "noopts" ["extra"]) := by
  refine ⟨?_, rfl⟩
  intro opts arg next hdash hnp
  have hn1 : splitEqHead arg ≠ "--help" := by
    intro h; rw [h] at hnp; exact absurd hnp (by decide)
  have hn2 : splitEqHead arg ≠ "-h" := by
    intro h; rw [h] at hnp; exact absurd hnp (by decide)
  have hn3 : splitEqHead arg ≠ "--version" := by
    intro h; rw [h] at hnp; exact absurd hnp (by decide)
  have hn4 : splitEqHead arg ≠ "-v" := by
    intro h; rw [h] at hnp; exact absurd hnp (by decide)
  unfold parseArg
  dsimp only
  rw [if_neg (by simp [hn1, hn2])]
  rw [if_neg (by simp [hn3, hn4])]
  rw [if_pos (by simp [hdash])]

/-- C2 (witness for the amended theorem). -/
theorem C2_witness :
    startsDash "extra" = false ∧
    parseArg [] [] "extra" none = .ok ({}, []) :=
  ⟨rfl, C2_positional_overflow.1 [] "extra" none rfl rfl⟩

/-- C3 (code bug, evaluated): the positional enum check tests `dataPart`
(the *following* token, or the part after `=`) instead of the positional
token itself, while reporting the token as the received value.  With the
enum `["a", "b"]`: the member token `"a"` (no following token) is
rejected with an EnumViolation that reports receiving `"a"`, and the
non-member token `"c"` is accepted (because the next token `"a"` happens
to be a member) and recorded as the positional's value — both against
the claim and the spec, which validate the token `t` itself. -/
theorem C3_positional_enum_eval :
    ("a" ∈ ["a", "b"]) ∧
    parseOptions cmdPosOne ["a"] false
      = .error (.enumViolationPos "target" "a" ["a", "b"]) ∧
    ("c" ∉ ["a", "b"]) ∧
    parseOptions cmdPosTwo ["c", "a"] false
      = .ok (.map (some [("target", .str "c"), ("second", .str "a")])) :=
  ⟨by decide, rfl, by decide, rfl⟩

/-- C6 (code bug, evaluated): a number option value that passes every
numeric validation (parses, integral, within `min 1`/`max 10`) is bound
in the option map as the raw string `"5"` — the code computes the coerced
`numData` only for validation and then stores `dataPart` — whereas the
claim (and the spec's "coerced value") requires the number `5`. -/
theorem C6_number_value_eval :
    parseOptions cmdNum ["--count=5"] false
      = .ok (.map (some [("count", OutputType.str "5")])) ∧
    jsNumber "5" = some 5 ∧
    OutputType.str "5" ≠ OutputType.num 5 :=
  ⟨rfl, by decide, by decide⟩

/-- C10: a parse that completes normally with an empty final record
returns the `undefined` mapping rather than an empty one — `parseOptions`
never returns `some []`, a command with no specs on no tokens yields
`none`, and the test entry point hands the handler `none` (undefined)
options. -/
theorem C10_empty_options_undefined :
    (∀ (cmd : Command) (args : List String) (o : Bool)
      (l : List (String × OutputType)),
      parseOptions cmd args o = .ok (.map (some l)) → l ≠ []) ∧
    parseOptions cmdNoOpts [] false = .ok (.map none) ∧
    testRun cmdNoOpts [] = .handler none := by
  refine ⟨?_, rfl, rfl⟩
  intro cmd args o l h
  unfold parseOptions at h
  split at h
  · exact absurd h (by simp)
  · exact absurd h (by simp)
  · exact absurd h (by simp)
  · dsimp only at h
    split at h
    · exact absurd h (by simp)
    · split at h
      · exact absurd h (by simp)
      · split at h
        · exact absurd h (by simp)
        · next hEmpty =>
          obtain rfl : _ = l := by simpa using h
          intro hnil
          rw [hnil] at hEmpty
          exact hEmpty rfl

/-- C10 (witness for the general part). -/
theorem C10_witness :
    parseOptions cmdPosTwo ["c", "a"] false
      = .ok (.map (some [("target", OutputType.str "c"),
          ("second", OutputType.str "a")])) ∧
    ([("target", OutputType.str "c"), ("second", OutputType.str "a")]
      : List (String × OutputType)) ≠ [] :=
  ⟨rfl, C10_empty_options_undefined.1 cmdPosTwo ["c", "a"] false
    [("target", OutputType.str "c"), ("second", OutputType.str "a")] rfl⟩

/-- C5: missing-required aggregation.  (1) A command all of whose specs
are required with undefined defaults, parsed on no tokens, raises one
single MissingRequired error enumerating every spec's `[name, aliases]`
in declaration order.  (2) Whenever the token scan completes and the
defaulting pass leaves a non-empty missing list, `parseOptions` raises
MissingRequired with exactly that list — in priority over an
UnrecognizedOptions error even when unrecognized flags were collected in
the same parse.  (3) The missing list is always a sublist of the
declaration-order option list, so its entries appear in declaration
order. -/
theorem C5_missing_required :
    (∀ cmd : Command,
      (cmd.options.all fun e => e.2.isRequired && (e.2.default == .undefined)) = true →
      cmd.options ≠ [] →
      parseOptions cmd [] false
        = .error (.missingRequired cmd.name
            (cmd.options.map fun e => e.2.name :: e.2.aliases))) ∧
    (∀ (cmd : Command) (args : List String) (o : Bool)
      (result : List (String × OutputType)) (unrec : List String)
      (missing : List (List String)),
      parseLoop (nonPositionalEntries cmd) (positionalEntries cmd) args [] []
        = .ok (.done result unrec) →
      missing = (applyDefaults cmd.options o result []).2 →
      missing ≠ [] →
      parseOptions cmd args o = .error (.missingRequired cmd.name missing)) ∧
    (∀ (cmd : Command) (o : Bool) (result : List (String × OutputType)),
      List.Sublist ((applyDefaults cmd.options o result []).2)
        (cmd.options.map fun e => e.2.name :: e.2.aliases)) := by
  refine ⟨?_, ?_, ?_⟩
  · intro cmd hall hne
    unfold parseOptions
    have hloop : parseLoop (nonPositionalEntries cmd) (positionalEntries cmd)
        [] [] [] = .ok (.done [] []) := rfl
    rw [hloop]
    dsimp only
    have hm : (applyDefaults cmd.options false [] []).2
        = cmd.options.map fun e => e.2.name :: e.2.aliases := by
      have := applyDefaults_all_missing cmd.options [] [] (by simp) hall
      simpa using this
    rw [hm]
    have hne' : (cmd.options.map fun e => e.2.name :: e.2.aliases) ≠ [] := by
      simpa using hne
    rw [if_pos (by simpa using hne')]
  · intro cmd args o result unrec missing hloop hmiss hne
    unfold parseOptions
    rw [hloop]
    dsimp only
    rw [← hmiss]
    rw [if_pos (by simpa using hne)]
  · intro cmd o result
    have h := applyDefaults_missing_sublist cmd.options o result []
    simpa using h

/-- C5 (witness): the required spec `flag` of `cmdReq` is reported
missing on an empty parse, and — priority — also on `["--bogus=1"]`,
where the unrecognized flag `--bogus` was collected in the same parse. -/
theorem C5_witness :
    (cmdReq.options.all fun e => e.2.isRequired && (e.2.default == .undefined)) = true ∧
    parseOptions cmdReq [] false
      = .error (.missingRequired cmdReq.name
          (cmdReq.options.map fun e => e.2.name :: e.2.aliases)) ∧
    parseOptions cmdReq ["--bogus=1"] false
      = .error (.missingRequired cmdReq.name [["--flag", "-f"]]) :=
  ⟨rfl,
   C5_missing_required.1 cmdReq rfl (by simp [cmdReq, Command.options]),
   C5_missing_required.2.1 cmdReq ["--bogus=1"] false
     [("undefined", .undefined)] ["--bogus"] [["--flag", "-f"]] rfl rfl (by simp)⟩

/-- C7: command resolution returns the token stream with the consumed
command-path tokens removed, order-preserving (the result is always a
sublist of the input stream), and on
`db{subcommands:[migrate]}` with input `["db", "migrate", "--dry"]` it
resolves the deepest subcommand `migrate` with remaining tokens
`["--dry"]`. -/
theorem C7_resolution :
    (∀ (cmds : List Command) (args : List String)
      (res : ResolvedCommand × List String),
      getCommand cmds args = .ok res → List.Sublist res.2 args) ∧
    getCommand [dbCmd] ["db", "migrate", "--dry"]
      = .ok (.cmd migrateCmd, ["--dry"]) :=
  ⟨fun cmds args res h => getCommand_sublist cmds args res h, rfl⟩

/-- C7 (witness for the sublist part). -/
theorem C7_witness :
    getCommand [dbCmd] ["db", "migrate", "--dry"]
      = .ok (.cmd migrateCmd, ["--dry"]) ∧
    List.Sublist ["--dry"] ["db", "migrate", "--dry"] :=
  ⟨rfl, C7_resolution.1 [dbCmd] ["db", "migrate", "--dry"]
    (.cmd migrateCmd, ["--dry"]) rfl⟩

/-- C9: the candidate-index invariant.  The scanner produces candidates
that index their own token with strictly increasing original indices
(`CandInv`), and the per-depth shift of `getCommandInner` — dropping the
consumed head candidate, removing its token, and lowering every
remaining candidate's index by one — preserves `CandInv`, so at every
recursion depth `args[originalIndex]` equals the candidate's token. -/
theorem C9_candidate_invariant :
    (∀ args : List String, CandInv args (scanCandidates args)) ∧
    (∀ (args : List String) (cand : Candidate) (rest : List Candidate),
      CandInv args (cand :: rest) →
      CandInv (removeByIndex args cand.originalIndex) (rest.map shiftCand)) := by
  constructor
  · intro args
    constructor
    · intro c hc
      exact (scanAux_invariant args.length args 0 args le_rfl (by simp) c hc).1
    · exact scanAux_pairwise args.length args le_rfl 0
  · intro args cand rest hinv
    obtain ⟨hidx, hpair⟩ := hinv
    rw [List.pairwise_cons] at hpair
    obtain ⟨hlt, hpair'⟩ := hpair
    constructor
    · intro c' hc'
      rw [List.mem_map] at hc'
      obtain ⟨c, hc, rfl⟩ := hc'
      have h1 : args[c.originalIndex]? = some c.data :=
        hidx c (List.mem_cons_of_mem _ hc)
      have h2 := getElem?_removeByIndex args cand.originalIndex
        c.originalIndex (hlt c hc)
      show (removeByIndex args cand.originalIndex)[c.originalIndex - 1]?
        = some c.data
      rw [h2, h1]
    · rw [List.pairwise_map]
      refine hpair'.imp_of_mem ?_
      intro a b ha _ hab
      have h1 := hlt a ha
      show a.originalIndex - 1 < b.originalIndex - 1
      omega

/-- C9 (witness: the invariant holds for a concrete scan and is carried
through one shift). -/
theorem C9_witness :
    CandInv ["run", "fast"] (scanCandidates ["run", "fast"]) ∧
    CandInv (removeByIndex ["run", "fast"] 0)
      ([Candidate.mk "fast" 1].map shiftCand) := by
  constructor
  · exact C9_candidate_invariant.1 ["run", "fast"]
  · refine C9_candidate_invariant.2 ["run", "fast"] (Candidate.mk "run" 0)
      [Candidate.mk "fast" 1] ?_
    have h := C9_candidate_invariant.1 ["run", "fast"]
    have hs : scanCandidates ["run", "fast"]
        = [Candidate.mk "run" 0, Candidate.mk "fast" 1] := rfl
    rw [hs] at h
    exact h

/-- C4 (counterexample): the version short-circuit does NOT use the
"lacking `=`" refinement the claim states for both flags: with
`["--x=1", "--version"]` the preceding flag carries `=`, so per the claim
the version route should fire, but the code suppresses the short-circuit
for any preceding flag-prefixed token and routes to global help
instead. -/
theorem C4_counterexample :
    rawCliRoute [pushCmd] ["--x=1", "--version"] false = .ok .globalHelp ∧
    Route.globalHelp ≠ Route.versionRoute :=
  ⟨rfl, fun h => nomatch h⟩

/-- C4 (amended): the raw, pre-resolution token scan short-circuits.  A
first `--help`/`-h` occurrence not immediately preceded by a
flag-prefixed token lacking `=` always yields a help route (CommandHelp
for the resolved command, GlobalHelp otherwise) or fails inside
resolution — never the version route, option parsing, or a handler.  If
no help short-circuit fires, a first `--version`/`-v` occurrence not
immediately preceded by ANY flag-prefixed token (the version test has no
`=` refinement) routes to version.  In particular `["push", "--help"]`
routes to CommandHelp for `push` even though `push` also resolves
successfully. -/
theorem C4_help_version_short_circuit :
    (∀ (cmds : List Command) (args : List String),
      helpShort args = true →
      (∃ c, rawCliRoute cmds args false = .ok (.commandHelp c)) ∨
        rawCliRoute cmds args false = .ok .globalHelp ∨
        ∃ e, rawCliRoute cmds args false = .error e) ∧
    (∀ (cmds : List Command) (args : List String),
      helpShort args = false → versionShort args = true →
      rawCliRoute cmds args false = .ok .versionRoute) ∧
    rawCliRoute [pushCmd] ["push", "--help"] false
      = .ok (.commandHelp pushCmd) := by
  refine ⟨?_, ?_, rfl⟩
  · intro cmds args h
    cases args with
    | nil => exact absurd h (by decide)
    | cons a t =>
      have c1 : ¬((a :: t).isEmpty = true) := by simp
      cases hg : getCommand cmds (a :: t) with
      | error e =>
        refine Or.inr (Or.inr ⟨e, ?_⟩)
        unfold rawCliRoute
        rw [if_neg c1, if_pos h, hg]
      | ok p =>
        obtain ⟨rc, l⟩ := p
        cases rc with
        | cmd c =>
          refine Or.inl ⟨c, ?_⟩
          unfold rawCliRoute
          rw [if_neg c1, if_pos h, hg]
        | helpLit =>
          refine Or.inr (Or.inl ?_)
          unfold rawCliRoute
          rw [if_neg c1, if_pos h, hg]
        | noCmd =>
          refine Or.inr (Or.inl ?_)
          unfold rawCliRoute
          rw [if_neg c1, if_pos h, hg]
  · intro cmds args h1 h2
    cases args with
    | nil => exact absurd h2 (by decide)
    | cons a t =>
      have c1 : ¬((a :: t).isEmpty = true) := by simp
      unfold rawCliRoute
      rw [if_neg c1, if_neg (by simp [h1]), if_pos h2]

/-- C4 (witness for the amended theorem, applying both general parts). -/
theorem C4_witness :
    helpShort ["status", "--help"] = true ∧
    rawCliRoute [] ["status", "--help"] false
      = .error (.unknownCommand "status") ∧
    helpShort ["--version"] = false ∧
    versionShort ["--version"] = true ∧
    rawCliRoute [] ["--version"] false = .ok .versionRoute := by
  refine ⟨rfl, rfl, rfl, rfl, ?_⟩
  exact C4_help_version_short_circuit.2.1 [] ["--version"] rfl rfl

/-- C8 (counterexample): the `help` reserved-name check is
case-sensitive, so the command name `HELP` — which case-insensitively
equals the reserved token `help` and per the claim must be rejected — is
accepted by definition-time validation. -/
theorem C8_counterexample :
    commandBuild { name := some "HELP" }
      = .ok (Command.mk "HELP" [] [] false []) ∧
    strLower "HELP" = "help" :=
  ⟨rfl, rfl⟩

/-- C8 (amended): definition-time validation rejects a command name that
is empty, starts with the flag prefix, equals `help` exactly
(case-sensitively), or case-insensitively equals `0`, `1`, `true` or
`false`; an alias is rejected by the same rule except that an empty
alias is not rejected. -/
theorem C8_reserved_names :
    ∀ raw : RawCommand,
      ((∃ n, raw.name = some n ∧ badCmdName n) ∨
        (∃ a ∈ raw.aliases, badCmdAliasName a)) →
      ∃ e, commandBuild raw = .error e := by
  intro raw h
  unfold commandBuild
  by_cases hc1 : (!raw.subcommands.isEmpty
      && (match raw.options with
          | some opts => opts.any fun e => e.2.type == .positional
          | none => false)) = true
  · rw [if_pos hc1]; exact ⟨_, rfl⟩
  · rw [if_neg hc1]
    cases hv : (match raw.options with
        | some o => (validateOptionsList o).map some
        | none => .ok none : Except ParseErr (Option (List (String × OptCfg)))) with
    | error e => exact ⟨e, rfl⟩
    | ok po =>
      dsimp only
      rcases h with ⟨n, hn, hbad⟩ | ⟨a, ha, hbad⟩
      · rw [hn]
        dsimp only
        by_cases h1 : (n == "") = true
        · rw [if_pos h1]; exact ⟨_, rfl⟩
        · rw [if_neg h1]
          by_cases h2 : startsDash n = true
          · rw [if_pos h2]; exact ⟨_, rfl⟩
          · rw [if_neg h2]
            cases hf : raw.aliases.find? startsDash with
            | some x => exact ⟨_, rfl⟩
            | none =>
              have hres : n = "help" ∨ reservedBoolName (some n) = true := by
                rcases hbad with hb | hb | hb | hb
                · exact absurd (by simp [hb]) h1
                · exact absurd hb h2
                · exact Or.inl hb
                · exact Or.inr hb
              have hmem : some n ∈ (if raw.aliases.isEmpty then [some n]
                  else some n :: raw.aliases.map some) := by
                split <;> simp
              obtain ⟨e, he⟩ := checkAllNames_err _ []
                ⟨some n, hmem, by
                  rcases hres with hb | hb
                  · exact Or.inl (by rw [hb])
                  · exact Or.inr hb⟩
              rw [he]
              exact ⟨e, rfl⟩
      · have hane : raw.aliases ≠ [] := fun hnil => by
          rw [hnil] at ha; exact absurd ha (by simp)
        have hemp : raw.aliases.isEmpty = false := by
          simpa using hane
        cases hname : raw.name with
        | some n0 =>
          dsimp only
          by_cases h1 : (n0 == "") = true
          · rw [if_pos h1]; exact ⟨_, rfl⟩
          · rw [if_neg h1]
            by_cases h2 : startsDash n0 = true
            · rw [if_pos h2]; exact ⟨_, rfl⟩
            · rw [if_neg h2]
              cases hf : raw.aliases.find? startsDash with
              | some x => exact ⟨_, rfl⟩
              | none =>
                have hnodash : startsDash a = false := by
                  have hz := List.find?_eq_none.mp hf a ha
                  simpa using hz
                have hres : a = "help" ∨ reservedBoolName (some a) = true := by
                  rcases hbad with hb | hb | hb
                  · rw [hb] at hnodash; exact absurd hnodash (by simp)
                  · exact Or.inl hb
                  · exact Or.inr hb
                have hmem : some a ∈ (if raw.aliases.isEmpty then [some n0]
                    else some n0 :: raw.aliases.map some) := by
                  rw [hemp]
                  simp only [Bool.false_eq_true, if_false]
                  exact List.mem_cons_of_mem _ (List.mem_map_of_mem some ha)
                obtain ⟨e, he⟩ := checkAllNames_err _ []
                  ⟨some a, hmem, by
                    rcases hres with hb | hb
                    · exact Or.inl (by rw [hb])
                    · exact Or.inr hb⟩
                rw [he]
                exact ⟨e, rfl⟩
        | none =>
          cases hal : raw.aliases with
          | nil => exact absurd hal hane
          | cons a0 as =>
            have hmem0 : a ∈ a0 :: as := by rw [← hal]; exact ha
            simp only [List.head?_cons, List.tail_cons, List.isEmpty_cons,
              Bool.false_eq_true, if_false]
            by_cases h1 : (a0 == "") = true
            · rw [if_pos h1]; exact ⟨_, rfl⟩
            · rw [if_neg h1]
              by_cases h2 : startsDash a0 = true
              · rw [if_pos h2]; exact ⟨_, rfl⟩
              · rw [if_neg h2]
                cases hf : as.find? startsDash with
                | some x => exact ⟨_, rfl⟩
                | none =>
                  have hres : a = "help" ∨ reservedBoolName (some a) = true := by
                    rcases hbad with hb | hb | hb
                    · rcases List.mem_cons.mp hmem0 with rfl | hmem'
                      · exact absurd hb h2
                      · have hz := List.find?_eq_none.mp hf a hmem'
                        rw [hb] at hz
                        exact absurd (rfl : (true : Bool) = true) hz
                    · exact Or.inl hb
                    · exact Or.inr hb
                  have hmem : some a ∈ (none : Option String)
                      :: (a0 :: as).map some := by
                    exact List.mem_cons_of_mem _ (List.mem_map_of_mem some hmem0)
                  obtain ⟨e, he⟩ := checkAllNames_err _ []
                    ⟨some a, hmem, by
                      rcases hres with hb | hb
                      · exact Or.inl (by rw [hb])
                      · exact Or.inr hb⟩
                  rw [he]
                  exact ⟨e, rfl⟩

/-- C8 (witness for the amended theorem). -/
theorem C8_witness :
    badCmdName "True" ∧ (∃ e, commandBuild { name := some "True" } = .error e) :=
  ⟨Or.inr (Or.inr (Or.inr (by decide))),
   C8_reserved_names { name := some "True" }
     (Or.inl ⟨"True", rfl, Or.inr (Or.inr (Or.inr (by decide)))⟩)⟩

end Brocli
